import Mathlib

/-!
Shallow embedding of the result-fusion and query-caching core of the
lesson-plan generation assistant (`src/hybrid_rag_system.py` and
`src/teaching_practices.py`).

Modelling conventions: Python floats are modelled as rationals, Python
lists as `List`, Python dicts (which preserve insertion order) as
association lists, and Python `list.sort` / `sorted` (a stable sort) as
`List.mergeSort`.  Code that may raise is modelled with `Except`;
external I/O (the Context7 client, the retrieval backends, the clock) is
passed in as data.  The runtime string hash used by the source is passed
as an explicit function parameter `h`.
-/

namespace HybridRAG

/-- A retrieval result dict with keys `content`, `score`, `source`, and the
derived key `weighted_score` attached by `_weighted_fusion` (a missing key
is read as `0` by the sort, so it is modelled as a plain field defaulting
to `0`). -/
structure Fragment where
  content : String
  score : ℚ
  source : String
  weighted_score : ℚ := 0
deriving DecidableEq

/-- Python `content.lower().split()`: case-fold, split on whitespace runs,
drop empty words (used at `_deduplicate_results`, lines 447-454). -/
def wsFold (c : Char) (groups : List (List Char)) : List (List Char) :=
  match groups with
  | [] => if c.isWhitespace then [[]] else [[c]]
  | g :: gs => if c.isWhitespace then [] :: g :: gs else (c :: g) :: gs

/-- The word list of a fragment content, Python `content.lower().split()`. -/
def pyWords (s : String) : List String :=
  (((s.data.map Char.toLower).foldr wsFold [[]]).filter (fun g => ¬ g.isEmpty)).map
    (fun cs => String.mk cs)

/-- Python `set(content.split())` as a finite set of words. -/
def wordSet (s : String) : Finset String := (pyWords s).toFinset

/-- `len(current_words & existing_words) / len(current_words | existing_words)`
(line 457 of `hybrid_rag_system.py`). -/
def jaccard (a b : Finset String) : ℚ := ((a ∩ b).card : ℚ) / ((a ∪ b).card : ℚ)

/-- The inner loop of `_deduplicate_results` (lines 445-460): the candidate
is a duplicate when some already-accepted fragment and the candidate both
have non-empty word sets and their Jaccard similarity strictly exceeds the
threshold. -/
def is_duplicate (threshold : ℚ) (accepted : List Fragment) (c : Fragment) : Bool :=
  accepted.any fun e =>
    decide ((wordSet c.content).Nonempty ∧ (wordSet e.content).Nonempty ∧
      threshold < jaccard (wordSet c.content) (wordSet e.content))

/-- The main loop of `_deduplicate_results`: walk the remaining candidates,
appending each one that is not a duplicate of an already-accepted one. -/
def dedup_go (threshold : ℚ) : List Fragment → List Fragment → List Fragment
  | acc, [] => acc
  | acc, c :: cs =>
    if is_duplicate threshold acc c then dedup_go threshold acc cs
    else dedup_go threshold (acc ++ [c]) cs

/-- `HybridRAGSystem._deduplicate_results` (lines 437-465).  The similarity
threshold parameter defaults to `0.8`, and no caller inside the source
passes a different value. -/
def deduplicate_results (results : List Fragment) (similarity_threshold : ℚ := 4/5) :
    List Fragment :=
  match results with
  | [] => []
  | r :: rest => dedup_go similarity_threshold [r] rest

/-- Comparator of the stable descending sort on `weighted_score` (line 379). -/
def weighted_le (x y : Fragment) : Bool := decide (y.weighted_score ≤ x.weighted_score)

/-- The `all_results` list of `_weighted_fusion` (lines 364-376): copies of
the LlamaIndex fragments carrying `weighted_score = score * ll_weight`
followed by copies of the LangChain fragments carrying
`weighted_score = score * lc_weight`. -/
def weighted_all (llamaindex_results langchain_results : List Fragment)
    (ll_weight lc_weight : ℚ) : List Fragment :=
  llamaindex_results.map (fun r => { r with weighted_score := r.score * ll_weight }) ++
    langchain_results.map (fun r => { r with weighted_score := r.score * lc_weight })

/-- `all_results.sort(key=..., reverse=True)` (line 379), a stable
descending sort by `weighted_score`. -/
def weighted_sorted (ll lc : List Fragment) (llw lcw : ℚ) : List Fragment :=
  (weighted_all ll lc llw lcw).mergeSort weighted_le

/-- `HybridRAGSystem._weighted_fusion` (lines 360-384). -/
def weighted_fusion (llamaindex_results langchain_results : List Fragment)
    (ll_weight lc_weight : ℚ) : List Fragment :=
  deduplicate_results (weighted_sorted llamaindex_results langchain_results ll_weight lc_weight)

/-- Comparator of the stable descending sort on the raw `score` (line 426). -/
def score_le (x y : Fragment) : Bool := decide (y.score ≤ x.score)

/-- `HybridRAGSystem._similarity_fusion` (lines 421-428). -/
def similarity_fusion (ll lc : List Fragment) : List Fragment :=
  deduplicate_results ((ll ++ lc).mergeSort score_le)

/-- `HybridRAGSystem._simple_merge` (lines 430-435). -/
def simple_merge (ll lc : List Fragment) (top_k : Nat) : List Fragment :=
  (ll ++ lc).take top_k

/-- One entry of `_rank_fusion`'s `score_dict`, keyed by
`hash(content[:100])`; the dict preserves insertion order. -/
structure RankEntry where
  key : Int
  result : Fragment
  rrf_score : ℚ
deriving DecidableEq

/-- `hash(result['content'][:100])` (lines 394, 404); the runtime string
hash is a parameter. -/
def content_key (h : String → Int) (f : Fragment) : Int := h (f.content.take 100)

/-- The insert-then-accumulate step on `score_dict`: a missing key is
inserted with score `0` holding the current fragment as representative,
then `add` is added to the key's score. -/
def rrf_add (d : List RankEntry) (k : Int) (f : Fragment) (add : ℚ) : List RankEntry :=
  if d.any (fun e => e.key == k) then
    d.map (fun e => if e.key == k then { e with rrf_score := e.rrf_score + add } else e)
  else d ++ [{ key := k, result := f, rrf_score := add }]

/-- `for rank, result in enumerate(results, 1): score_dict[key] += 1/(60+rank)`
(lines 393-410), starting from a given 1-based rank. -/
def process_ranked (h : String → Int) : List RankEntry → Nat → List Fragment → List RankEntry
  | d, _, [] => d
  | d, rank, f :: fs =>
      process_ranked h (rrf_add d (content_key h f) f (1 / (60 + (rank : ℚ)))) (rank + 1) fs

/-- The final `score_dict` of `_rank_fusion`: LlamaIndex results processed
first, then LangChain results, each with ranks starting at 1. -/
def rank_score_dict (h : String → Int) (ll lc : List Fragment) : List RankEntry :=
  process_ranked h (process_ranked h [] 1 ll) 1 lc

/-- Comparator of the stable descending sort on `rrf_score` (lines 413-417). -/
def rrf_le (x y : RankEntry) : Bool := decide (y.rrf_score ≤ x.rrf_score)

/-- `HybridRAGSystem._rank_fusion` (lines 386-419). -/
def rank_fusion (h : String → Int) (ll lc : List Fragment) : List Fragment :=
  ((rank_score_dict h ll lc).mergeSort rrf_le).map (fun e => e.result)

/-- Accumulated RRF score held in the score dict under a content key
(`0` when the key is absent). -/
def rrf_score_of (d : List RankEntry) (k : Int) : ℚ :=
  ((d.find? (fun e => e.key == k)).map RankEntry.rrf_score).getD 0

/-- The fields of `HybridQuery` (lines 36-47). -/
structure HybridQuery where
  query : String
  user_id : Option String := Option.none
  subject : Option String := Option.none
  grade : Option String := Option.none
  top_k : Nat := 5
  use_memory : Bool := true
  fusion_method : String := "weighted"
  llamaindex_weight : ℚ := 3/5
  langchain_weight : ℚ := 2/5

/-- `HybridRAGSystem._fuse_results` (lines 338-358).  The three named
strategies run inside `try`; in Python each can raise on a malformed
fragment, so the embedding takes each strategy as a fallible function.
Any error is caught and answered with `_simple_merge` of the original two
lists and `query.top_k`; an unrecognized `fusion_method` also falls back
to `_simple_merge`. -/
def fuse_results
    (wf : List Fragment → List Fragment → ℚ → ℚ → Except String (List Fragment))
    (rf sf : List Fragment → List Fragment → Except String (List Fragment))
    (query : HybridQuery) (ll lc : List Fragment) : List Fragment :=
  let attempt : Except String (List Fragment) :=
    if query.fusion_method = "weighted" then
      wf ll lc query.llamaindex_weight query.langchain_weight
    else if query.fusion_method = "rank" then rf ll lc
    else if query.fusion_method = "similarity" then sf ll lc
    else Except.ok (simple_merge ll lc query.top_k)
  match attempt with
  | Except.ok r => r
  | Except.error _ => simple_merge ll lc query.top_k

end HybridRAG

namespace TeachingPractices

/-- A value of one `TeachingPracticeQuery` field after `asdict` (line 259):
the enum-typed fields carry their string values, `keywords` a string list,
`limit` an integer, and unset optionals `None`. -/
inductive Value where
  | null : Value
  | str : String → Value
  | strList : List String → Value
  | int : Int → Value
deriving DecidableEq

/-- The `TeachingPracticeQuery` dataclass (`teaching_practices.py`,
lines 92-101).  `limit` is an `int` constrained to `ge=1, le=50` at the
API boundary (`teaching_practices_api.py`, line 86), modelled as `Nat`. -/
structure TeachingPracticeQuery where
  subject : Option String := Option.none
  grade : Option String := Option.none
  objective : Option String := Option.none
  method_type : Option String := Option.none
  keywords : Option (List String) := Option.none
  language : String := "zh-CN"
  limit : Nat := 10
deriving DecidableEq

/-- Rendering of an optional enum field under `asdict`. -/
def optValue (o : Option String) : Value :=
  match o with
  | Option.none => Value.null
  | Option.some s => Value.str s

/-- `asdict(query).items()` in dataclass field declaration order. -/
def query_fields (q : TeachingPracticeQuery) : List (String × Value) :=
  [("subject", optValue q.subject), ("grade", optValue q.grade),
   ("objective", optValue q.objective), ("method_type", optValue q.method_type),
   ("keywords", match q.keywords with
                | Option.none => Value.null
                | Option.some l => Value.strList l),
   ("language", Value.str q.language), ("limit", Value.int q.limit)]

/-- Comparator for `sorted(query_dict.items())`: dataclass field names are
pairwise distinct, so Python's tuple comparison only ever consults the
first component. -/
def item_le (a b : String × Value) : Bool := decide (a.1 ≤ b.1)

/-- `sorted(query_dict.items())` (line 261), a stable sort by field name. -/
def sort_items (items : List (String × Value)) : List (String × Value) :=
  items.mergeSort item_le

/-- The escape character of the rendering, Python's backslash. -/
def escChar : Char := Char.ofNat 92

/-- The separator between rendered fields. -/
def itemSep : Char := Char.ofNat 59

/-- The separator between the pieces of one rendered field. -/
def pairSep : Char := Char.ofNat 44

/-- Escaping a payload before it is joined with separators: the escape
character and the separator are each preceded by the escape character,
exactly as Python's `repr` backslash-escapes quotes and backslashes inside
string literals so that the rendering of `sorted_items` stays
unambiguous. -/
def escapeC (sep : Char) : List Char → List Char
  | [] => []
  | c :: cs =>
    if c = sep ∨ c = escChar then escChar :: c :: escapeC sep cs
    else c :: escapeC sep cs

/-- Join escaped pieces, terminating each piece with the separator. -/
def joinEsc (sep : Char) : List (List Char) → List Char
  | [] => []
  | x :: xs => escapeC sep x ++ sep :: joinEsc sep xs

/-- An integer payload rendered as a sign and a tally.  Python renders
decimal digits; both renderings are injective, which is all the key
derivation relies on. -/
def intChars (i : Int) : List Char :=
  if 0 ≤ i then List.replicate i.toNat 'x'
  else '-' :: List.replicate (-i).toNat 'x'

/-- The pieces rendered for one `(name, value)` pair: the field name, a
constructor tag, then the payload strings — the shape of one
`('name', value)` element inside Python's `str(sorted_items)`. -/
def pairPieces : String × Value → List (List Char)
  | (n, Value.null) => [n.data, ['N']]
  | (n, Value.str s) => [n.data, ['S'], s.data]
  | (n, Value.strList l) => [n.data, ['L']] ++ l.map String.data
  | (n, Value.int i) => [n.data, ['I'], intChars i]

/-- `str(sorted_items)` (line 262): the rendering of the sorted pair list.
Python renders via `repr`, which quotes and backslash-escapes payloads and
so never collides on these value types; the model renders with explicit
separator escaping and is likewise injective (proved below). -/
def serialize_items (items : List (String × Value)) : String :=
  String.mk (joinEsc itemSep (items.map (fun p => joinEsc pairSep (pairPieces p))))

/-- `_generate_cache_key` (lines 257-262) on a field/value list: sort the
pairs by field name, render, hash with the runtime string hash `h`, and
attach the fixed prefix. -/
def generate_cache_key (h : String → Int) (items : List (String × Value)) : String :=
  "teaching_practices:" ++ toString (h (serialize_items (sort_items items)))

/-- `_generate_cache_key` applied to a query dataclass. -/
def generate_cache_key_q (h : String → Int) (q : TeachingPracticeQuery) : String :=
  generate_cache_key h (query_fields q)

/-- `self.cache_ttl = 3600` (line 255), in seconds. -/
def cache_ttl : ℚ := 3600

/-- One value of `self.cache`: the dict `{"data": ..., "timestamp": ...}`;
an absent `"timestamp"` key is `Option.none`.  Timestamps are rational
seconds (the source stores `datetime.now().isoformat()` and compares
`total_seconds()`). -/
structure CacheEntry (ρ : Type) where
  data : ρ
  timestamp : Option ℚ
deriving DecidableEq

/-- `_is_cache_valid` (lines 264-271): an entry with no timestamp is
invalid, otherwise it is valid iff its age is strictly below the TTL. -/
def is_cache_valid {ρ : Type} (now : ℚ) (e : CacheEntry ρ) : Bool :=
  match e.timestamp with
  | Option.none => false
  | Option.some t => decide (now - t < cache_ttl)

/-- The `self.cache` dict as an insertion-ordered association list. -/
abbrev Cache (ρ : Type) := List (String × CacheEntry ρ)

/-- `key in self.cache` / `self.cache[key]` read access. -/
def cache_lookup {ρ : Type} (st : Cache ρ) (k : String) : Option (CacheEntry ρ) :=
  (st.find? (fun p => p.1 == k)).map Prod.snd

/-- `self.cache[key] = entry`: overwrite in place when present, else append. -/
def cache_set {ρ : Type} (st : Cache ρ) (k : String) (e : CacheEntry ρ) : Cache ρ :=
  if st.any (fun p => p.1 == k) then
    st.map (fun p => if p.1 == k then (k, e) else p)
  else st ++ [(k, e)]

/-- `_fetch_teaching_strategies` (lines 273-309): the `try` body (the
Context7 round-trips plus parsing) is supplied as a fallible computation
yielding the accumulated parsed strategies; an exception or an empty
harvest falls back to the built-in defaults, and the result is truncated
to `query.limit`. -/
def fetch_teaching_strategies {ε σ : Type} (fetched : Except ε (List σ))
    (defaults : List σ) (limit : Nat) : List σ :=
  (match fetched with
   | Except.ok l => if l.isEmpty then defaults else l
   | Except.error _ => defaults).take limit

/-- `_fetch_classroom_activities` (lines 311-342), same shape. -/
def fetch_classroom_activities {ε α : Type} (fetched : Except ε (List α))
    (defaults : List α) (limit : Nat) : List α :=
  (match fetched with
   | Except.ok l => if l.isEmpty then defaults else l
   | Except.error _ => defaults).take limit

/-- `_fetch_assessment_methods` (lines 344-366), same shape. -/
def fetch_assessment_methods {ε μ : Type} (fetched : Except ε (List μ))
    (defaults : List μ) (limit : Nat) : List μ :=
  (match fetched with
   | Except.ok l => if l.isEmpty then defaults else l
   | Except.error _ => defaults).take limit

/-- `_fetch_classroom_management` (lines 368-390): unlike the other three
fetchers it truncates to the fixed constant `5`, not to `query.limit`. -/
def fetch_classroom_management {ε κ : Type} (fetched : Except ε (List κ))
    (defaults : List κ) : List κ :=
  (match fetched with
   | Except.ok l => if l.isEmpty then defaults else l
   | Except.error _ => defaults).take 5

/-- `TeachingPracticeResponse` (lines 152-160) with the payload item types
abstract: their fields are opaque to the caching and truncation logic. -/
structure TPResponse (σ α μ κ : Type) where
  query_info : List (String × Value)
  teaching_strategies : List σ
  classroom_activities : List α
  assessment_methods : List μ
  classroom_management : List κ
  additional_resources : List String
deriving DecidableEq

/-- The response built in the `try` block of `get_teaching_practices`
(lines 709-732) from the outcomes of the four concurrent fetches. -/
def compute_response {ε σ α μ κ : Type} (q : TeachingPracticeQuery)
    (fs : Except ε (List σ)) (fa : Except ε (List α))
    (fm : Except ε (List μ)) (fc : Except ε (List κ))
    (defS : List σ) (defA : List α) (defM : List μ) (defC : List κ) :
    TPResponse σ α μ κ :=
  { query_info := query_fields q
    teaching_strategies := fetch_teaching_strategies fs defS q.limit
    classroom_activities := fetch_classroom_activities fa defA q.limit
    assessment_methods := fetch_assessment_methods fm defM q.limit
    classroom_management := fetch_classroom_management fc defC
    additional_resources := ["现代教育技术应用指南", "学生参与度提升策略",
      "差异化教学实践手册", "形成性评估工具包"] }

/-- The body run after the cache check fails (lines 706-752): run the
compute stage; on success store `{"data": resp, "timestamp": now}` under
the key and return the response; on any exception return the
default-built response and leave the cache untouched. -/
def compute_and_store {ε ρ : Type} (compute : TeachingPracticeQuery → Except ε ρ)
    (defaultResponse : TeachingPracticeQuery → ρ) (now : ℚ)
    (st : Cache ρ) (key : String) (q : TeachingPracticeQuery) :
    Except ε (ρ × Cache ρ) :=
  match compute q with
  | Except.ok resp => Except.ok (resp, cache_set st key ⟨resp, Option.some now⟩)
  | Except.error _ => Except.ok (defaultResponse q, st)

/-- `get_teaching_practices` (lines 689-752).  The compute stage (the
`asyncio.gather` of the four fetches and the response construction) is the
parameter `compute`; the cached dict round-trips back through the response
constructor, modelled as the identity.  The `Except` answer type records
where exceptions could escape: every branch of the translation returns
`Except.ok`, because the source catches every exception of the compute
stage and answers with the default response instead. -/
def get_teaching_practices {ε ρ : Type} (h : String → Int)
    (compute : TeachingPracticeQuery → Except ε ρ)
    (defaultResponse : TeachingPracticeQuery → ρ) (now : ℚ)
    (st : Cache ρ) (q : TeachingPracticeQuery) : Except ε (ρ × Cache ρ) :=
  match cache_lookup st (generate_cache_key_q h q) with
  | Option.some e =>
    if is_cache_valid now e then Except.ok (e.data, st)
    else compute_and_store compute defaultResponse now st (generate_cache_key_q h q) q
  | Option.none => compute_and_store compute defaultResponse now st (generate_cache_key_q h q) q

/-- `clear_cache` (lines 754-757). -/
def clear_cache {ρ : Type} (_st : Cache ρ) : Cache ρ := []

/-- The dict returned by `get_cache_stats` (lines 759-769). -/
structure CacheStats where
  total_entries : Nat
  valid_entries : Nat
  expired_entries : Nat
  cache_ttl : ℚ
deriving DecidableEq

/-- `get_cache_stats` (lines 759-769): entry validity is recomputed at
call time and `expired_entries` is reported as the difference. -/
def get_cache_stats {ρ : Type} (now : ℚ) (st : Cache ρ) : CacheStats :=
  let total := st.length
  let valid := st.countP (fun p => is_cache_valid now p.2)
  { total_entries := total, valid_entries := valid,
    expired_entries := total - valid, cache_ttl := cache_ttl }

/-- Fixture: the response assembled from a harvest of two strategies, one
activity, one assessment method and six management tips. -/
def fixture_response (q : TeachingPracticeQuery) : TPResponse String String String String :=
  compute_response (ε := Unit) q (Except.ok ["s1", "s2"]) (Except.ok ["a1"])
    (Except.ok ["m1"]) (Except.ok ["c1", "c2", "c3", "c4", "c5", "c6"]) [] [] [] []

/-- Fixture: the compute stage that succeeds with `fixture_response`. -/
def fixture_compute (q : TeachingPracticeQuery) :
    Except Unit (TPResponse String String String String) :=
  Except.ok (fixture_response q)

/-- Fixture: an all-empty default response. -/
def fixture_default (_q : TeachingPracticeQuery) : TPResponse String String String String :=
  TPResponse.mk [] [] [] [] [] []

/-- Fixture query with `limit = 1`. -/
def q_limit1 : TeachingPracticeQuery := { limit := 1 }

end TeachingPractices

namespace HybridRAG

/-- The fragment of list A in the specification scenario:
`{"content": "alpha beta", score: 0.9, source: "A"}`. -/
def fragA : Fragment := { content := "alpha beta", score := 9/10, source := "A" }

/-- The fragment of list B in the specification scenario:
`{"content": "alpha beta gamma", score: 0.8, source: "B"}`. -/
def fragB : Fragment := { content := "alpha beta gamma", score := 4/5, source := "B" }

/-- `fragA` with the weighted score `0.9 * 0.6` attached. -/
def fragA_w : Fragment := { fragA with weighted_score := 27/50 }

/-- `fragB` with the weighted score `0.8 * 0.4` attached. -/
def fragB_w : Fragment := { fragB with weighted_score := 8/25 }

/-- A fragment with empty content (its word set is empty). -/
def fragE : Fragment := { content := "", score := 1, source := "A" }

/-- A fixture fragment for the rank-fusion scenario. -/
def fragX : Fragment := { content := "shared doc", score := 1/2, source := "A" }

end HybridRAG

/-! ### Theorems -/

open HybridRAG TeachingPractices

/-- `List.mergeSort` on a two-element list compares the pair once. -/
theorem mergeSort_pair {α : Type} (le : α → α → Bool) (a b : α) :
    List.mergeSort [a, b] le = if le a b then [a, b] else [b, a] := by
  rw [List.mergeSort]
  simp only [List.splitInTwo, List.splitAt, List.splitAt.go, List.length_cons,
    List.length_nil]
  norm_num
  simp [List.mergeSort, List.merge]

/-- C3: for every pair of input lists and every fusion request, if computing
the selected weighted, rank, or similarity strategy raises an internal
exception, `_fuse_results` catches it and returns the simple-merge result
(concatenation of list A then list B, truncated to the request's `top_k`)
on the original two lists; the fallback is a total function, so callers
never observe a strategy error as an exception. -/
theorem C3_fuse_error_fallback
    (wf : List Fragment → List Fragment → ℚ → ℚ → Except String (List Fragment))
    (rf sf : List Fragment → List Fragment → Except String (List Fragment))
    (query : HybridQuery) (ll lc : List Fragment) (e : String)
    (herr :
      (query.fusion_method = "weighted" ∧
        wf ll lc query.llamaindex_weight query.langchain_weight = Except.error e) ∨
      (query.fusion_method = "rank" ∧ rf ll lc = Except.error e) ∨
      (query.fusion_method = "similarity" ∧ sf ll lc = Except.error e)) :
    fuse_results wf rf sf query ll lc = simple_merge ll lc query.top_k := by
  unfold fuse_results
  rcases herr with ⟨hm, he⟩ | ⟨hm, he⟩ | ⟨hm, he⟩ <;> simp [hm, he]

/-- Witness for C3: a weighted-strategy request whose strategy computation
fails is answered with the simple merge of the two input lists. -/
theorem C3_fuse_error_fallback_witness :
    fuse_results (fun _ _ _ _ => Except.error "boom") (fun _ _ => Except.ok [])
      (fun _ _ => Except.ok []) { query := "q" }
      [{ content := "a", score := 1, source := "llamaindex" }]
      [{ content := "b", score := 1, source := "langchain" }]
      = simple_merge [{ content := "a", score := 1, source := "llamaindex" }]
          [{ content := "b", score := 1, source := "langchain" }] 5 :=
  C3_fuse_error_fallback _ _ _ _ _ _ "boom" (Or.inl ⟨rfl, rfl⟩)

/-- C9: `get_cache_stats` recomputes validity at call time with the
invariant `now - created_at < ttl`, reports `expired_entries` as
`total_entries - valid_entries`, and on a cache holding one entry created
now and one created `ttl + 1` seconds ago reports totals `2, 1, 1`. -/
theorem C9_cache_stats {ρ : Type} (now t : ℚ) (st : Cache ρ) (d d1 d2 : ρ) :
    ((is_cache_valid now (CacheEntry.mk d (Option.some t)) = true) ↔ now - t < cache_ttl) ∧
    (get_cache_stats now st).total_entries = st.length ∧
    (get_cache_stats now st).valid_entries
      = st.countP (fun p => is_cache_valid now p.2) ∧
    (get_cache_stats now st).expired_entries
      = (get_cache_stats now st).total_entries - (get_cache_stats now st).valid_entries ∧
    get_cache_stats now
        [("k1", CacheEntry.mk d1 (Option.some now)),
         ("k2", CacheEntry.mk d2 (Option.some (now - (cache_ttl + 1))))]
      = CacheStats.mk 2 1 1 cache_ttl := by
  refine ⟨by simp [is_cache_valid], rfl, rfl, rfl, ?_⟩
  have h1 : is_cache_valid now (CacheEntry.mk d1 (Option.some now)) = true := by
    simp [is_cache_valid, cache_ttl]
  have h2 : is_cache_valid now (CacheEntry.mk d2 (Option.some (now - (cache_ttl + 1)))) = false := by
    simp only [is_cache_valid, cache_ttl, decide_eq_false_iff_not, not_lt]
    norm_num
  simp [get_cache_stats, List.countP_cons, h1, h2]

/-- Writing an entry makes it the one found under its key, whether the
write overwrote in place or appended. -/
theorem find?_cache_set_self {ρ : Type} (k : String) (e : CacheEntry ρ) :
    ∀ st : Cache ρ, (cache_set st k e).find? (fun p => p.1 == k) = Option.some (k, e) := by
  have hmap : ∀ st : Cache ρ, st.any (fun p => p.1 == k) = true →
      (st.map (fun p => if p.1 == k then (k, e) else p)).find? (fun p => p.1 == k)
        = Option.some (k, e) := by
    intro st
    induction st with
    | nil => intro hany; simp at hany
    | cons p ps ih =>
      intro hany
      rw [List.map_cons]
      by_cases hp : p.1 = k
      · rw [if_pos (by simp [hp]), List.find?_cons_of_pos _ (by simp)]
      · rw [if_neg (by simp [hp]), List.find?_cons_of_neg _ (by simp [hp])]
        apply ih
        rcases List.any_eq_true.mp hany with ⟨x, hx, hxk⟩
        rcases List.mem_cons.mp hx with hx | hx
        · exact absurd (by simpa [hx] using hxk) hp
        · exact List.any_eq_true.mpr ⟨x, hx, hxk⟩
  intro st
  by_cases hany : st.any (fun p => p.1 == k)
  · rw [cache_set, if_pos hany]
    exact hmap st hany
  · rw [cache_set, if_neg hany]
    have hnone : st.find? (fun p => p.1 == k) = Option.none := by
      rw [List.find?_eq_none]
      intro x hx
      exact fun hxk => hany (List.any_eq_true.mpr ⟨x, hx, hxk⟩)
    simp [List.find?_append, hnone]

/-- `cache_lookup` finds a freshly written entry. -/
theorem cache_lookup_set_self {ρ : Type} (st : Cache ρ) (k : String) (e : CacheEntry ρ) :
    cache_lookup (cache_set st k e) k = Option.some e := by
  rw [cache_lookup, find?_cache_set_self]
  rfl

/-- C10: on the non-cached, non-error path, the response built by
`get_teaching_practices` carries at most `5` classroom-management entries
regardless of the query's `limit`, while the teaching strategies,
classroom activities and assessment methods are each truncated to at most
`limit` entries. -/
theorem C10_truncation {ε σ α μ κ : Type} (h : String → Int) (now : ℚ)
    (q : TeachingPracticeQuery)
    (fs : Except ε (List σ)) (fa : Except ε (List α))
    (fm : Except ε (List μ)) (fc : Except ε (List κ))
    (defS : List σ) (defA : List α) (defM : List μ) (defC : List κ)
    (defaultResponse : TeachingPracticeQuery → TPResponse σ α μ κ)
    (st : Cache (TPResponse σ α μ κ))
    (hmiss : ∀ en, cache_lookup st (generate_cache_key_q h q) = Option.some en →
      is_cache_valid now en = false) :
    get_teaching_practices (ε := ε) h
        (fun q2 => Except.ok (compute_response q2 fs fa fm fc defS defA defM defC))
        defaultResponse now st q
      = Except.ok (compute_response q fs fa fm fc defS defA defM defC,
          cache_set st (generate_cache_key_q h q)
            (CacheEntry.mk (compute_response q fs fa fm fc defS defA defM defC)
              (Option.some now))) ∧
    (compute_response q fs fa fm fc defS defA defM defC).classroom_management.length ≤ 5 ∧
    (compute_response q fs fa fm fc defS defA defM defC).teaching_strategies.length ≤ q.limit ∧
    (compute_response q fs fa fm fc defS defA defM defC).classroom_activities.length ≤ q.limit ∧
    (compute_response q fs fa fm fc defS defA defM defC).assessment_methods.length ≤ q.limit := by
  refine ⟨?_, ?_, ?_, ?_, ?_⟩
  · rw [get_teaching_practices]
    cases hl : cache_lookup st (generate_cache_key_q h q) with
    | none => rfl
    | some en => simp [compute_and_store, hmiss en hl]
  · simp [compute_response, fetch_classroom_management, List.length_take]
  · simp [compute_response, fetch_teaching_strategies, List.length_take]
  · simp [compute_response, fetch_classroom_activities, List.length_take]
  · simp [compute_response, fetch_assessment_methods, List.length_take]

/-- Witness for C10: on an uncached query with `limit = 1`, the stored and
returned response keeps five of the six management tips and one of the two
strategies. -/
theorem C10_truncation_witness :
    get_teaching_practices (fun _ => 0) fixture_compute fixture_default 0 [] q_limit1
      = Except.ok (fixture_response q_limit1,
          cache_set [] (generate_cache_key_q (fun _ => 0) q_limit1)
            (CacheEntry.mk (fixture_response q_limit1) (Option.some 0))) ∧
    (fixture_response q_limit1).classroom_management.length ≤ 5 :=
  have hc := C10_truncation (fun _ => 0) 0 q_limit1 (Except.ok ["s1", "s2"])
    (Except.ok ["a1"]) (Except.ok ["m1"])
    (Except.ok ["c1", "c2", "c3", "c4", "c5", "c6"]) [] [] [] []
    fixture_default []
    (by intro en hen; simp [cache_lookup] at hen)
  ⟨hc.1, hc.2.1⟩

/-- C2 counterexample: at a concrete query whose compute stage raises, the
claimed propagation does not happen: `get_teaching_practices` catches the
exception and returns the default-built response (an `Except.ok` value,
not the `Except.error "boom"` the claim requires), leaving the empty
cache unchanged. -/
theorem C2_counterexample :
    get_teaching_practices (ε := String) (ρ := String) (fun _ => 0)
        (fun _ => Except.error "boom") (fun _ => "default") 0 [] {}
      = Except.ok ("default", []) := rfl

/-- C2 (amended): for every query whose cache check fails and every compute
stage that raises, `get_teaching_practices` catches the exception and
returns the default-built response; nothing is stored in the cache — the
cache mapping is unchanged — so a failed computation is never memoized. -/
theorem C2_amended {ε ρ : Type} (h : String → Int)
    (compute : TeachingPracticeQuery → Except ε ρ)
    (defaultResponse : TeachingPracticeQuery → ρ) (now : ℚ)
    (st : Cache ρ) (q : TeachingPracticeQuery) (e : ε)
    (hmiss : ∀ en, cache_lookup st (generate_cache_key_q h q) = Option.some en →
      is_cache_valid now en = false)
    (herr : compute q = Except.error e) :
    get_teaching_practices h compute defaultResponse now st q
      = Except.ok (defaultResponse q, st) := by
  rw [get_teaching_practices]
  cases hl : cache_lookup st (generate_cache_key_q h q) with
  | none => simp [compute_and_store, herr]
  | some en => simp [compute_and_store, hmiss en hl, herr]

/-- Witness for C2 (amended): a failing compute stage on a cache holding
one stale entry under a different key answers with the default response
and leaves that cache intact. -/
theorem C2_amended_witness :
    get_teaching_practices (ε := String) (ρ := String) (fun _ => 0)
        (fun _ => Except.error "boom") (fun _ => "default") 0
        [("other", CacheEntry.mk "x" Option.none)] {}
      = Except.ok ("default", [("other", CacheEntry.mk "x" Option.none)]) :=
  C2_amended (fun _ => 0) (fun _ => Except.error "boom") (fun _ => "default") 0
    [("other", CacheEntry.mk "x" Option.none)] {} "boom"
    (by intro en hen; simp [cache_lookup, is_cache_valid] at hen ⊢; simp [← hen])
    rfl

/-- C4: (hit path) when the cache holds a valid entry under the query's
derived key, `get_teaching_practices` answers with the stored value, the
cache unchanged, for every compute function — the compute stage is not
consulted; (consequence) after a successful cold call, a second call with
a structurally identical query within `ttl` seconds returns the first
call's value without consulting its own compute function, so the compute
stage runs exactly once across the two calls. -/
theorem C4_cache_hit {ε ρ : Type} (h : String → Int)
    (defaultResponse : TeachingPracticeQuery → ρ) (now now2 : ℚ)
    (st : Cache ρ) (q : TeachingPracticeQuery) (en : CacheEntry ρ) (r : ρ) :
    (cache_lookup st (generate_cache_key_q h q) = Option.some en →
      is_cache_valid now en = true →
      ∀ compute : TeachingPracticeQuery → Except ε ρ,
        get_teaching_practices h compute defaultResponse now st q
          = Except.ok (en.data, st)) ∧
    ((∀ e2, cache_lookup st (generate_cache_key_q h q) = Option.some e2 →
        is_cache_valid now e2 = false) →
      now2 - now < cache_ttl →
      ∀ compute : TeachingPracticeQuery → Except ε ρ,
      compute q = Except.ok r →
      get_teaching_practices h compute defaultResponse now st q
        = Except.ok (r, cache_set st (generate_cache_key_q h q)
            (CacheEntry.mk r (Option.some now))) ∧
      ∀ compute2 : TeachingPracticeQuery → Except ε ρ,
        get_teaching_practices h compute2 defaultResponse now2
            (cache_set st (generate_cache_key_q h q) (CacheEntry.mk r (Option.some now))) q
          = Except.ok (r, cache_set st (generate_cache_key_q h q)
              (CacheEntry.mk r (Option.some now)))) := by
  constructor
  · intro hl hv compute
    rw [get_teaching_practices, hl]
    simp [hv]
  · intro hmiss hfresh compute hok
    constructor
    · rw [get_teaching_practices]
      cases hl : cache_lookup st (generate_cache_key_q h q) with
      | none => simp [compute_and_store, hok]
      | some e2 => simp [compute_and_store, hmiss e2 hl, hok]
    · intro compute2
      rw [get_teaching_practices, cache_lookup_set_self]
      have hv : is_cache_valid now2 (CacheEntry.mk r (Option.some now)) = true := by
        simpa [is_cache_valid] using hfresh
      simp [hv]

/-- Witness for C4: a cold call computes `"r"` and stores it; one second
later the same query is answered from the cache even though the second
call's compute function would fail. -/
theorem C4_cache_hit_witness :
    get_teaching_practices (ε := String) (ρ := String) (fun _ => 0)
        (fun _ => Except.error "must not run") (fun _ => "default") 1
        (cache_set [] (generate_cache_key_q (fun _ => 0) {})
          (CacheEntry.mk "r" (Option.some 0))) {}
      = Except.ok ("r", cache_set [] (generate_cache_key_q (fun _ => 0) {})
          (CacheEntry.mk "r" (Option.some 0))) :=
  ((C4_cache_hit (ε := String) (fun _ => 0) (fun _ => "default") 0 1 [] {}
      (CacheEntry.mk "default" Option.none) "r").2
    (by intro e2 he2; simp [cache_lookup] at he2)
    (by rw [cache_ttl]; norm_num)
    (fun _ => Except.ok "r") rfl).2
    (fun _ => Except.error "must not run")

/-- The scenario word sets `{alpha, beta}` and `{alpha, beta, gamma}` have
Jaccard similarity `2/3`. -/
theorem jaccard_scenario :
    jaccard (wordSet "alpha beta") (wordSet "alpha beta gamma") = 2/3 := by
  have h1 : (wordSet "alpha beta" ∩ wordSet "alpha beta gamma").card = 2 := by decide
  have h2 : (wordSet "alpha beta" ∪ wordSet "alpha beta gamma").card = 3 := by decide
  rw [jaccard, h1, h2]
  norm_num

/-- The same similarity with the arguments in candidate-first order. -/
theorem jaccard_scenario2 :
    jaccard (wordSet "alpha beta gamma") (wordSet "alpha beta") = 2/3 := by
  have h1 : (wordSet "alpha beta gamma" ∩ wordSet "alpha beta").card = 2 := by decide
  have h2 : (wordSet "alpha beta gamma" ∪ wordSet "alpha beta").card = 3 := by decide
  rw [jaccard, h1, h2]
  norm_num

/-- Weighted fusion of the scenario lists keeps both fragments, because the
deduplication inside `_weighted_fusion` always runs at the default
threshold `0.8`, which the similarity `2/3` does not exceed. -/
theorem weighted_fusion_scenario :
    weighted_fusion [fragA] [fragB] (3/5) (2/5) = [fragA_w, fragB_w] := by
  have hall : weighted_all [fragA] [fragB] (3/5) (2/5) = [fragA_w, fragB_w] := by
    simp only [weighted_all, List.map_cons, List.map_nil, List.cons_append,
      List.nil_append, fragA, fragB, fragA_w, fragB_w]
    norm_num
  have hle : weighted_le fragA_w fragB_w = true := by
    simp only [weighted_le, fragA_w, fragB_w, fragA, fragB, decide_eq_true_eq]
    norm_num
  have hsort : weighted_sorted [fragA] [fragB] (3/5) (2/5) = [fragA_w, fragB_w] := by
    rw [weighted_sorted, hall, mergeSort_pair, if_pos hle]
  have hdup : is_duplicate (4/5) [fragA_w] fragB_w = false := by
    simp only [is_duplicate, List.any_cons, List.any_nil, Bool.or_false,
      decide_eq_false_iff_not]
    rintro ⟨-, -, hlt⟩
    rw [show fragB_w.content = "alpha beta gamma" from rfl,
      show fragA_w.content = "alpha beta" from rfl, jaccard_scenario2] at hlt
    norm_num at hlt
  rw [weighted_fusion, hsort, deduplicate_results]
  simp [dedup_go, hdup]

/-- C1 counterexample: on the scenario inputs the weighted fusion returns
two fragments, not the single fragment from list A that the claim
requires — a dedup threshold of `0.5` cannot be requested through fusion,
which always deduplicates at the fixed default `0.8`. -/
theorem C1_counterexample :
    (weighted_fusion [fragA] [fragB] (3/5) (2/5)).length = 2 := by
  rw [weighted_fusion_scenario]
  rfl

/-- C1 (amended): on the scenario inputs, weighted fusion with weights
`0.6/0.4` returns both fragments in order `[A, B]`, because the
deduplication pass inside fusion always runs at the fixed default
threshold `0.8` and the word-set Jaccard similarity `2/3` does not exceed
`0.8`; only when the deduplication pass is invoked directly with the
threshold `0.5` — which `2/3` does exceed — is B's fragment dropped,
leaving A's fragment alone. -/
theorem C1_amended :
    weighted_fusion [fragA] [fragB] (3/5) (2/5) = [fragA_w, fragB_w] ∧
    deduplicate_results [fragA_w, fragB_w] (1/2) = [fragA_w] ∧
    jaccard (wordSet fragA.content) (wordSet fragB.content) = 2/3 ∧
    ((1:ℚ)/2 < 2/3 ∧ ¬ ((4:ℚ)/5 < 2/3)) := by
  refine ⟨weighted_fusion_scenario, ?_, ?_, by norm_num, by norm_num⟩
  · have hdup : is_duplicate (1/2) [fragA_w] fragB_w = true := by
      simp only [is_duplicate, List.any_cons, List.any_nil, Bool.or_false,
        decide_eq_true_eq]
      refine ⟨by decide, by decide, ?_⟩
      rw [show fragB_w.content = "alpha beta gamma" from rfl,
        show fragA_w.content = "alpha beta" from rfl, jaccard_scenario2]
      norm_num
    rw [deduplicate_results]
    simp only [dedup_go, hdup, eq_self_iff_true, if_true, List.append_nil,
      List.singleton_append]
  · rw [show fragA.content = "alpha beta" from rfl,
      show fragB.content = "alpha beta gamma" from rfl]
    exact jaccard_scenario

/-- The Bool duplicate test agrees with its mathematical reading. -/
theorem is_duplicate_iff (th : ℚ) (acc : List Fragment) (c : Fragment) :
    is_duplicate th acc c = true ↔
      ∃ e ∈ acc, (wordSet c.content).Nonempty ∧ (wordSet e.content).Nonempty ∧
        th < jaccard (wordSet c.content) (wordSet e.content) := by
  simp [is_duplicate, List.any_eq_true]

/-- A candidate with an empty word set is never flagged as a duplicate. -/
theorem is_duplicate_of_empty (th : ℚ) (acc : List Fragment) (c : Fragment)
    (hc : wordSet c.content = ∅) : is_duplicate th acc c = false := by
  simp [is_duplicate, hc, Finset.not_nonempty_empty]

/-- The dedup loop only ever appends to the accepted prefix. -/
theorem dedup_go_split (th : ℚ) :
    ∀ (l acc : List Fragment), ∃ t, dedup_go th acc l = acc ++ t := by
  intro l
  induction l with
  | nil => intro acc; exact ⟨[], by simp [dedup_go]⟩
  | cons c cs ih =>
    intro acc
    by_cases hd : is_duplicate th acc c
    · obtain ⟨t, ht⟩ := ih acc
      exact ⟨t, by rw [dedup_go, if_pos hd, ht]⟩
    · obtain ⟨t, ht⟩ := ih (acc ++ [c])
      exact ⟨c :: t, by rw [dedup_go, if_neg hd, ht]; simp⟩

/-- Copies of an empty-word-set fragment survive the dedup loop with their
multiplicity intact. -/
theorem dedup_count_of_empty (th : ℚ) (f : Fragment)
    (hf : wordSet f.content = ∅) :
    ∀ (l acc : List Fragment),
      (dedup_go th acc l).count f = acc.count f + l.count f := by
  intro l
  induction l with
  | nil => intro acc; simp [dedup_go]
  | cons c cs ih =>
    intro acc
    by_cases hd : is_duplicate th acc c
    · rw [dedup_go, if_pos hd, ih]
      have hcf : (c == f) = false := by
        rw [beq_eq_false_iff_ne]
        rintro rfl
        rw [is_duplicate_of_empty th acc c hf] at hd
        exact absurd hd (by simp)
      rw [List.count_cons, hcf]
      simp
    · rw [dedup_go, if_neg hd, ih, List.count_append]
      simp only [List.count_cons, List.count_nil, Nat.zero_add]
      ring

/-- C7: the deduplication pass seeds the accepted list with the first
candidate unconditionally; each later candidate is dropped exactly when
its Jaccard similarity (intersection over union of the case-insensitive
whitespace-split word sets) against some already-accepted fragment
strictly exceeds the threshold; and a candidate whose word set is empty is
always kept and never treated as a duplicate of anything. -/
theorem C7_dedup (th : ℚ) (r : Fragment) (rest : List Fragment) :
    (∃ t, deduplicate_results (r :: rest) th = r :: t) ∧
    (∀ (acc : List Fragment) (c : Fragment) (cs : List Fragment),
      dedup_go th acc (c :: cs) =
        if ∃ e ∈ acc, (wordSet c.content).Nonempty ∧ (wordSet e.content).Nonempty ∧
            th < jaccard (wordSet c.content) (wordSet e.content)
        then dedup_go th acc cs
        else dedup_go th (acc ++ [c]) cs) ∧
    (∀ (l : List Fragment) (f : Fragment), wordSet f.content = ∅ →
      (deduplicate_results l th).count f = l.count f) := by
  refine ⟨?_, ?_, ?_⟩
  · obtain ⟨t, ht⟩ := dedup_go_split th rest [r]
    exact ⟨t, by rw [deduplicate_results, ht]; simp⟩
  · intro acc c cs
    by_cases hd : ∃ e ∈ acc, (wordSet c.content).Nonempty ∧ (wordSet e.content).Nonempty ∧
        th < jaccard (wordSet c.content) (wordSet e.content)
    · rw [if_pos hd, dedup_go, if_pos ((is_duplicate_iff th acc c).mpr hd)]
    · rw [if_neg hd, dedup_go, if_neg (fun hb => hd ((is_duplicate_iff th acc c).mp hb))]
  · intro l f hf
    cases l with
    | nil => rfl
    | cons x xs =>
      rw [deduplicate_results, dedup_count_of_empty th f hf]
      simp only [List.count_cons, List.count_nil, Nat.zero_add]
      ring

/-- Witness for C7: both copies of an empty-content fragment survive
deduplication at threshold `0.5`. -/
theorem C7_dedup_witness :
    (deduplicate_results [fragE, fragE] (1/2)).count fragE
      = [fragE, fragE].count fragE :=
  (C7_dedup (1/2) fragE []).2.2 [fragE, fragE] fragE (by decide)

/-- The score-accumulating map step commutes with looking the key up. -/
theorem find?_rrf_upd (k : Int) (a : ℚ) :
    ∀ d : List RankEntry,
      (d.map (fun e => if e.key == k then { e with rrf_score := e.rrf_score + a } else e)).find?
          (fun e => e.key == k)
        = (d.find? (fun e => e.key == k)).map
            (fun e => { e with rrf_score := e.rrf_score + a }) := by
  intro d
  induction d with
  | nil => rfl
  | cons e d ih =>
    rw [List.map_cons]
    by_cases he : e.key = k
    · have h1 : (({ e with rrf_score := e.rrf_score + a } : RankEntry).key == k) = true := by
        simp [he]
      have h2 : (e.key == k) = true := by simp [he]
      rw [if_pos h2]
      simp only [List.find?_cons, h1, h2]
      rfl
    · have h2 : (e.key == k) = false := by simp [he]
      rw [if_neg (by simp [he] : ¬ (e.key == k) = true)]
      simp only [List.find?_cons, h2]
      exact ih

/-- Upserting a key adds exactly `a` to that key's accumulated score. -/
theorem rrf_score_of_add_self (d : List RankEntry) (k : Int) (f : Fragment) (a : ℚ) :
    rrf_score_of (rrf_add d k f a) k = rrf_score_of d k + a := by
  by_cases hany : d.any (fun e => e.key == k)
  · rw [rrf_add, if_pos hany, rrf_score_of, rrf_score_of, find?_rrf_upd]
    rcases List.any_eq_true.mp hany with ⟨x, hx, hxk⟩
    obtain ⟨e0, he0⟩ : ∃ e0, d.find? (fun e => e.key == k) = Option.some e0 := by
      cases hfe : d.find? (fun e => e.key == k) with
      | some e0 => exact ⟨e0, rfl⟩
      | none =>
        rw [List.find?_eq_none] at hfe
        exact absurd hxk (hfe x hx)
    rw [he0]
    rfl
  · rw [rrf_add, if_neg hany, rrf_score_of, rrf_score_of]
    have hnone : d.find? (fun e => e.key == k) = Option.none := by
      rw [List.find?_eq_none]
      intro x hx hxk
      exact hany (List.any_eq_true.mpr ⟨x, hx, hxk⟩)
    rw [List.find?_append, hnone]
    simp

/-- Upserting some other key leaves this key's accumulated score alone. -/
theorem rrf_score_of_add_other (d : List RankEntry) (k k2 : Int) (f : Fragment)
    (a : ℚ) (hne : k2 ≠ k) :
    rrf_score_of (rrf_add d k2 f a) k = rrf_score_of d k := by
  have hkk : k ≠ k2 := fun hh => hne hh.symm
  by_cases hany : d.any (fun e => e.key == k2)
  · rw [rrf_add, if_pos hany, rrf_score_of, rrf_score_of, List.find?_map]
    have hpred : ((fun e : RankEntry => e.key == k) ∘
        (fun e => if e.key == k2 then { e with rrf_score := e.rrf_score + a } else e))
          = (fun e : RankEntry => e.key == k) := by
      funext e
      by_cases he : e.key = k2 <;> simp [he]
    rw [hpred]
    cases hfe : d.find? (fun e => e.key == k) with
    | none => rfl
    | some e0 =>
      have he0k : e0.key = k := by
        have h5 := List.find?_some hfe
        simpa using h5
      have he0ne : ¬ e0.key = k2 := by
        rw [he0k]
        exact hkk
      simp [he0ne]
  · rw [rrf_add, if_neg hany, rrf_score_of, rrf_score_of, List.find?_append]
    have hnew : (({ key := k2, result := f, rrf_score := a } : RankEntry).key == k)
        = false := by
      simp only [beq_eq_false_iff_ne]
      exact hne
    cases hfe : d.find? (fun e => e.key == k) with
    | none => simp [hnew]
    | some e0 => simp

/-- Processing fragments none of which hashes to the key leaves the key's
accumulated score alone, whatever the starting rank. -/
theorem rrf_score_of_process_of_not_mem (h : String → Int) (k : Int) :
    ∀ (L : List Fragment) (d : List RankEntry) (rank : Nat),
      (∀ f ∈ L, content_key h f ≠ k) →
      rrf_score_of (process_ranked h d rank L) k = rrf_score_of d k := by
  intro L
  induction L with
  | nil => intro d rank _; rfl
  | cons f fs ih =>
    intro d rank hL
    rw [process_ranked, ih _ _ (fun g hg => hL g (List.mem_cons_of_mem f hg))]
    exact rrf_score_of_add_other _ _ _ _ _ (hL f (List.mem_cons_self f fs))

/-- C6: under reciprocal rank fusion with `k = 60` and first-100-character
content-hash grouping, a fragment ranked 1st in both source lists
accumulates the RRF score `1/61 + 1/61`, strictly more than the `1/61` of
a fragment ranked 1st in only one list, all else equal (no other fragment
colliding with its content key). -/
theorem C6_rrf_monotonicity (h : String → Int) (X : Fragment)
    (restA restB restC : List Fragment)
    (hA : ∀ f ∈ restA, content_key h f ≠ content_key h X)
    (hB : ∀ f ∈ restB, content_key h f ≠ content_key h X)
    (hC : ∀ f ∈ restC, content_key h f ≠ content_key h X) :
    rrf_score_of (rank_score_dict h (X :: restA) (X :: restB)) (content_key h X)
        = 1/61 + 1/61 ∧
    rrf_score_of (rank_score_dict h (X :: restC) []) (content_key h X) = 1/61 ∧
    rrf_score_of (rank_score_dict h [] (X :: restC)) (content_key h X) = 1/61 ∧
    (1:ℚ)/61 < 1/61 + 1/61 := by
  have hstep : ∀ (rest : List Fragment) (d : List RankEntry),
      (∀ f ∈ rest, content_key h f ≠ content_key h X) →
      rrf_score_of (process_ranked h d 1 (X :: rest)) (content_key h X)
        = rrf_score_of d (content_key h X) + 1/61 := by
    intro rest d hrest
    rw [process_ranked, rrf_score_of_process_of_not_mem h _ rest _ 2 hrest,
      rrf_score_of_add_self]
    norm_num
  have hnil : rrf_score_of ([] : List RankEntry) (content_key h X) = 0 := rfl
  refine ⟨?_, ?_, ?_, by norm_num⟩
  · rw [rank_score_dict, hstep restB _ hB, hstep restA _ hA, hnil]
    ring
  · rw [rank_score_dict, process_ranked, hstep restC _ hC, hnil]
    ring
  · rw [rank_score_dict, process_ranked, hstep restC _ hC, hnil]
    ring

/-- Witness for C6: a fragment alone at rank 1 in both lists scores
`2/61`, strictly above the single-list score `1/61`. -/
theorem C6_rrf_monotonicity_witness :
    rrf_score_of (rank_score_dict (fun _ => 0) [fragX] [fragX])
        (content_key (fun _ => 0) fragX) = 1/61 + 1/61 ∧
    (1:ℚ)/61 < 1/61 + 1/61 :=
  have hc := C6_rrf_monotonicity (fun _ => 0) fragX [] [] []
    (by simp) (by simp) (by simp)
  ⟨hc.1, hc.2.2.2⟩

/-- C5: weighted fusion scores A's fragments by `score * weight_a` and B's
by `score * weight_b` (`weighted_all` lists A's copies before B's), sorts
the concatenation descending by the weighted score with ties kept in input
order — for equal scores A's fragments stay before B's — and hands the
sorted list to the deduplication pass at the default threshold `0.8`. -/
theorem C5_weighted_fusion (ll lc : List Fragment) (llw lcw : ℚ) :
    weighted_fusion ll lc llw lcw
      = deduplicate_results (weighted_sorted ll lc llw lcw) (4/5) ∧
    List.Perm (weighted_sorted ll lc llw lcw) (weighted_all ll lc llw lcw) ∧
    (weighted_sorted ll lc llw lcw).Pairwise
      (fun x y => y.weighted_score ≤ x.weighted_score) ∧
    ∀ q : ℚ,
      (weighted_sorted ll lc llw lcw).filter (fun f => decide (f.weighted_score = q))
        = (weighted_all ll lc llw lcw).filter (fun f => decide (f.weighted_score = q)) := by
  have htrans : ∀ a b c : Fragment, weighted_le a b → weighted_le b c → weighted_le a c := by
    intro a b c hab hbc
    simp only [weighted_le, decide_eq_true_eq] at hab hbc ⊢
    exact le_trans hbc hab
  have htotal : ∀ a b : Fragment, weighted_le a b || weighted_le b a := by
    intro a b
    simp only [weighted_le, Bool.or_eq_true, decide_eq_true_eq]
    exact le_total _ _
  refine ⟨rfl, List.mergeSort_perm _ _, ?_, ?_⟩
  · exact (List.sorted_mergeSort htrans htotal _).imp (fun hb => by
      simpa [weighted_le] using hb)
  · intro q
    have hall : ∀ a ∈ (weighted_all ll lc llw lcw).filter
          (fun f => decide (f.weighted_score = q)),
        ∀ b ∈ (weighted_all ll lc llw lcw).filter
          (fun f => decide (f.weighted_score = q)), weighted_le a b := by
      intro a ha b hb
      have ha2 := (List.mem_filter.mp ha).2
      have hb2 := (List.mem_filter.mp hb).2
      simp only [decide_eq_true_eq] at ha2 hb2
      simp [weighted_le, ha2, hb2]
    have hpw := List.pairwise_of_forall_mem_list hall
    have hsub : List.Sublist
        ((weighted_all ll lc llw lcw).filter (fun f => decide (f.weighted_score = q)))
        ((weighted_all ll lc llw lcw).mergeSort weighted_le) :=
      List.sublist_mergeSort htrans htotal hpw (List.filter_sublist _)
    have hsubf : List.Sublist
        ((weighted_all ll lc llw lcw).filter (fun f => decide (f.weighted_score = q)))
        ((weighted_sorted ll lc llw lcw).filter (fun f => decide (f.weighted_score = q))) := by
      have h0 := hsub.filter (fun f => decide (f.weighted_score = q))
      rwa [List.filter_eq_self.mpr (fun a ha => (List.mem_filter.mp ha).2)] at h0
    have hperm : List.Perm
        ((weighted_sorted ll lc llw lcw).filter (fun f => decide (f.weighted_score = q)))
        ((weighted_all ll lc llw lcw).filter (fun f => decide (f.weighted_score = q))) :=
      (List.mergeSort_perm _ _).filter _
    exact (hsubf.eq_of_length hperm.length_eq.symm).symm

/-- With pairwise-distinct field names, a field name determines its pair. -/
theorem assoc_pair_unique :
    ∀ {l : List (String × Value)}, (l.map Prod.fst).Nodup →
      ∀ {p q : String × Value}, p ∈ l → q ∈ l → p.1 = q.1 → p = q := by
  intro l
  induction l with
  | nil => intro _ p q hp; exact absurd hp (List.not_mem_nil p)
  | cons x xs ih =>
    intro hnd p q hp hq hpq
    rw [List.map_cons, List.nodup_cons] at hnd
    rcases List.mem_cons.mp hp with rfl | hp2
    · rcases List.mem_cons.mp hq with rfl | hq2
      · rfl
      · exfalso
        apply hnd.1
        have hq1 : q.1 ∈ xs.map Prod.fst := List.mem_map_of_mem Prod.fst hq2
        rwa [← hpq] at hq1
    · rcases List.mem_cons.mp hq with rfl | hq2
      · exfalso
        apply hnd.1
        have hp1 : p.1 ∈ xs.map Prod.fst := List.mem_map_of_mem Prod.fst hp2
        rwa [hpq] at hp1
      · exact ih hnd.2 hp2 hq2 hpq

/-- Two permuted lists, each strictly sorted on the field name, coincide. -/
theorem sorted_nodup_eq {l₁ l₂ : List (String × Value)}
    (hperm : List.Perm l₁ l₂)
    (hs₁ : l₁.Pairwise (fun a b => a.1 < b.1))
    (hs₂ : l₂.Pairwise (fun a b => a.1 < b.1)) : l₁ = l₂ := by
  haveI : IsAntisymm (String × Value) (fun a b => a.1 < b.1) :=
    ⟨fun a b hab hba => absurd (lt_trans hab hba) (lt_irrefl _)⟩
  exact List.eq_of_perm_of_sorted hperm hs₁ hs₂

/-- The comparator is transitive. -/
theorem item_le_trans : ∀ a b c : String × Value,
    item_le a b → item_le b c → item_le a c := by
  intro a b c hab hbc
  simp only [item_le, decide_eq_true_eq] at hab hbc ⊢
  exact le_trans hab hbc

/-- The comparator is total. -/
theorem item_le_total : ∀ a b : String × Value, item_le a b || item_le b a := by
  intro a b
  simp only [item_le, Bool.or_eq_true, decide_eq_true_eq]
  exact le_total _ _

/-- A name-sorted list with pairwise-distinct names is strictly sorted. -/
theorem pairwise_lt_of_sorted_nodup {l : List (String × Value)}
    (hs : l.Pairwise (fun a b => item_le a b = true))
    (hnd : (l.map Prod.fst).Nodup) :
    l.Pairwise (fun a b => a.1 < b.1) := by
  have hne : l.Pairwise (fun a b => a.1 ≠ b.1) := List.pairwise_map.mp hnd
  exact (hs.and hne).imp
    (fun hab => lt_of_le_of_ne (by simpa [item_le] using hab.1) hab.2)

/-- `sorted(...)` is a permutation of its input. -/
theorem sort_items_perm (items : List (String × Value)) :
    List.Perm (sort_items items) items := List.mergeSort_perm _ _

/-- `sorted(...)` sorts by field name. -/
theorem sort_items_sorted (items : List (String × Value)) :
    (sort_items items).Pairwise (fun a b => item_le a b = true) :=
  List.sorted_mergeSort item_le_trans item_le_total _

/-- Permuting a distinct-name field list does not change its sorted form. -/
theorem sort_items_eq_of_perm (l₁ l₂ : List (String × Value))
    (hnd : (l₁.map Prod.fst).Nodup) (hp : List.Perm l₁ l₂) :
    sort_items l₁ = sort_items l₂ := by
  have hnds₁ : ((sort_items l₁).map Prod.fst).Nodup :=
    (((sort_items_perm l₁).map Prod.fst).nodup_iff).mpr hnd
  have hnd₂ : (l₂.map Prod.fst).Nodup := ((hp.map Prod.fst).nodup_iff).mp hnd
  have hnds₂ : ((sort_items l₂).map Prod.fst).Nodup :=
    (((sort_items_perm l₂).map Prod.fst).nodup_iff).mpr hnd₂
  apply sorted_nodup_eq
  · exact ((sort_items_perm l₁).trans hp).trans (sort_items_perm l₂).symm
  · exact pairwise_lt_of_sorted_nodup (sort_items_sorted l₁) hnds₁
  · exact pairwise_lt_of_sorted_nodup (sort_items_sorted l₂) hnds₂

/-- A terminated escaped piece determines the piece and the remainder: the
first unescaped separator is unambiguous. -/
theorem joinEsc_boundary (sep : Char) (hsep : sep ≠ escChar) :
    ∀ (x₁ x₂ r₁ r₂ : List Char),
      escapeC sep x₁ ++ sep :: r₁ = escapeC sep x₂ ++ sep :: r₂ →
      x₁ = x₂ ∧ r₁ = r₂ := by
  intro x₁
  induction x₁ with
  | nil =>
    intro x₂ r₁ r₂ h
    cases x₂ with
    | nil =>
      simp only [escapeC, List.nil_append, List.cons.injEq, true_and] at h
      exact ⟨rfl, h⟩
    | cons c cs =>
      simp only [escapeC, List.nil_append] at h
      by_cases hc : c = sep ∨ c = escChar
      · rw [if_pos hc] at h
        simp only [List.cons_append, List.cons.injEq] at h
        exact absurd h.1 hsep
      · rw [if_neg hc] at h
        simp only [List.cons_append, List.cons.injEq] at h
        exact absurd h.1.symm (fun hcs => hc (Or.inl hcs))
  | cons c₁ cs₁ ih =>
    intro x₂ r₁ r₂ h
    cases x₂ with
    | nil =>
      simp only [escapeC, List.nil_append] at h
      by_cases hc : c₁ = sep ∨ c₁ = escChar
      · rw [if_pos hc] at h
        simp only [List.cons_append, List.cons.injEq] at h
        exact absurd h.1.symm hsep
      · rw [if_neg hc] at h
        simp only [List.cons_append, List.cons.injEq] at h
        exact absurd h.1 (fun hcs => hc (Or.inl hcs))
    | cons c₂ cs₂ =>
      simp only [escapeC] at h
      by_cases hc1 : c₁ = sep ∨ c₁ = escChar
      · by_cases hc2 : c₂ = sep ∨ c₂ = escChar
        · rw [if_pos hc1, if_pos hc2] at h
          simp only [List.cons_append, List.cons.injEq, true_and] at h
          obtain ⟨hcc, htail⟩ := h
          obtain ⟨hx, hr⟩ := ih cs₂ r₁ r₂ htail
          exact ⟨by rw [hcc, hx], hr⟩
        · rw [if_pos hc1, if_neg hc2] at h
          simp only [List.cons_append, List.cons.injEq] at h
          exact absurd h.1.symm (fun hcs => hc2 (Or.inr hcs))
      · by_cases hc2 : c₂ = sep ∨ c₂ = escChar
        · rw [if_neg hc1, if_pos hc2] at h
          simp only [List.cons_append, List.cons.injEq] at h
          exact absurd h.1 (fun hcs => hc1 (Or.inr hcs))
        · rw [if_neg hc1, if_neg hc2] at h
          simp only [List.cons_append, List.cons.injEq] at h
          obtain ⟨hcc, htail⟩ := h
          obtain ⟨hx, hr⟩ := ih cs₂ r₁ r₂ htail
          exact ⟨by rw [hcc, hx], hr⟩

/-- Joining escaped, separator-terminated pieces is injective. -/
theorem joinEsc_inj (sep : Char) (hsep : sep ≠ escChar) :
    ∀ l₁ l₂ : List (List Char), joinEsc sep l₁ = joinEsc sep l₂ → l₁ = l₂ := by
  intro l₁
  induction l₁ with
  | nil =>
    intro l₂ h
    cases l₂ with
    | nil => rfl
    | cons y ys =>
      rw [joinEsc, joinEsc] at h
      exact absurd h.symm (by simp)
  | cons x xs ih =>
    intro l₂ h
    cases l₂ with
    | nil =>
      rw [joinEsc, joinEsc] at h
      exact absurd h (by simp)
    | cons y ys =>
      rw [joinEsc, joinEsc] at h
      obtain ⟨hx, hr⟩ := joinEsc_boundary sep hsep x y _ _ h
      rw [hx, ih ys hr]

/-- The integer rendering is injective. -/
theorem intChars_inj : ∀ i j : Int, intChars i = intChars j → i = j := by
  intro i j h
  rw [intChars, intChars] at h
  by_cases hi : 0 ≤ i <;> by_cases hj : 0 ≤ j
  · rw [if_pos hi, if_pos hj, List.replicate_inj] at h
    omega
  · rw [if_pos hi, if_neg hj] at h
    cases hn : i.toNat with
    | zero => rw [hn] at h; simp at h
    | succ n =>
      rw [hn, List.replicate_succ] at h
      injection h with h1 h2
      exact absurd h1 (by decide)
  · rw [if_neg hi, if_pos hj] at h
    cases hn : j.toNat with
    | zero => rw [hn] at h; simp at h
    | succ n =>
      rw [hn, List.replicate_succ] at h
      injection h with h1 h2
      exact absurd h1 (by decide)
  · rw [if_neg hi, if_neg hj] at h
    injection h with h1 h2
    rw [List.replicate_inj] at h2
    omega

/-- The piece list of a rendered field determines the field. -/
theorem pairPieces_inj : ∀ p q : String × Value, pairPieces p = pairPieces q → p = q := by
  intro p q h
  obtain ⟨n₁, v₁⟩ := p
  obtain ⟨n₂, v₂⟩ := q
  cases v₁ <;> cases v₂ <;>
    simp only [pairPieces, List.cons_append, List.nil_append, List.cons.injEq,
      true_and, and_true] at h
  case null.null =>
    rw [String.ext h]
  case str.str =>
    obtain ⟨h1, h2⟩ := h
    rw [String.ext h1, String.ext h2]
  case strList.strList =>
    obtain ⟨h1, h2⟩ := h
    rw [String.ext h1,
      List.map_injective_iff.mpr (fun a b hab => String.ext hab) h2]
  case int.int =>
    obtain ⟨h1, h2⟩ := h
    rw [String.ext h1, intChars_inj _ _ h2]
  all_goals exact absurd h.2.1 (by decide)

/-- `str(sorted_items)` never collides: the rendering is injective, as the
source's `repr`-based rendering is. -/
theorem serialize_items_inj : Function.Injective serialize_items := by
  intro l₁ l₂ h
  rw [serialize_items, serialize_items] at h
  have hdata : joinEsc itemSep (l₁.map (fun p => joinEsc pairSep (pairPieces p)))
      = joinEsc itemSep (l₂.map (fun p => joinEsc pairSep (pairPieces p))) :=
    congrArg String.data h
  have h4 := joinEsc_inj itemSep (by decide) _ _ hdata
  exact List.map_injective_iff.mpr
    (fun p q hpq => pairPieces_inj _ _ (joinEsc_inj pairSep (by decide) _ _ hpq)) h4

/-- C8: the cache-key derivation (sort the field/value pairs by name,
render, hash, prefix) sends any two permutations of the same
distinct-name field list to the same key — the key is a deterministic
function of the query's field-value set; two field lists that disagree on
some field's value always produce different hash inputs, because the
rendering is injective (as the source's `repr`-based `str(sorted_items)`
is); and whenever the runtime hash also separates the two renderings —
the claim's "overwhelming probability" caveat — the derived keys
differ. -/
theorem C8_cache_key (h : String → Int) :
    (∀ l₁ l₂ : List (String × Value), (l₁.map Prod.fst).Nodup → List.Perm l₁ l₂ →
      generate_cache_key h l₁ = generate_cache_key h l₂) ∧
    (∀ l₁ l₂ : List (String × Value), ∀ (name : String) (v₁ v₂ : Value),
      (l₁.map Prod.fst).Nodup → (l₂.map Prod.fst).Nodup →
      (name, v₁) ∈ l₁ → (name, v₂) ∈ l₂ → v₁ ≠ v₂ →
      serialize_items (sort_items l₁) ≠ serialize_items (sort_items l₂)) ∧
    (∀ l₁ l₂ : List (String × Value),
      toString (h (serialize_items (sort_items l₁)))
        ≠ toString (h (serialize_items (sort_items l₂))) →
      generate_cache_key h l₁ ≠ generate_cache_key h l₂) := by
  refine ⟨?_, ?_, ?_⟩
  · intro l₁ l₂ hnd hp
    rw [generate_cache_key, generate_cache_key, sort_items_eq_of_perm l₁ l₂ hnd hp]
  · intro l₁ l₂ name v₁ v₂ hnd₁ hnd₂ hm₁ hm₂ hne heq
    have hsorted : sort_items l₁ = sort_items l₂ := serialize_items_inj heq
    have hp : List.Perm l₁ l₂ := by
      refine (sort_items_perm l₁).symm.trans ?_
      rw [hsorted]
      exact sort_items_perm l₂
    have hm₁2 : (name, v₁) ∈ l₂ := hp.mem_iff.mp hm₁
    have hpair := assoc_pair_unique hnd₂ hm₁2 hm₂ rfl
    exact hne (congrArg Prod.snd hpair)
  · intro l₁ l₂ hh heq
    apply hh
    rw [generate_cache_key, generate_cache_key] at heq
    have hd : ("teaching_practices:".data
          ++ (toString (h (serialize_items (sort_items l₁)))).data)
        = ("teaching_practices:".data
          ++ (toString (h (serialize_items (sort_items l₂)))).data) :=
      congrArg String.data heq
    exact String.ext (List.append_cancel_left hd)

/-- Witness for C8: the two field orderings of `{subject: "math",
grade: "5"}` share a key; changing the value to `"mth"` changes the
rendered hash input; and under a hash that separates those two renderings
the derived keys differ. -/
theorem C8_cache_key_witness :
    (generate_cache_key (fun _ => 0)
        [("subject", Value.str "math"), ("grade", Value.str "5")]
      = generate_cache_key (fun _ => 0)
        [("grade", Value.str "5"), ("subject", Value.str "math")]) ∧
    serialize_items (sort_items [("subject", Value.str "math")])
      ≠ serialize_items (sort_items [("subject", Value.str "mth")]) ∧
    generate_cache_key (fun s => (s.data.length : Int)) [("subject", Value.str "math")]
      ≠ generate_cache_key (fun s => (s.data.length : Int)) [("subject", Value.str "mth")] :=
  ⟨(C8_cache_key (fun _ => 0)).1 _ _ (by decide) (List.Perm.swap _ _ _),
   (C8_cache_key (fun _ => 0)).2.1 _ _ "subject" (Value.str "math") (Value.str "mth")
     (by decide) (by decide) (by simp) (by simp) (by decide),
   (C8_cache_key (fun s => (s.data.length : Int))).2.2 _ _ (by
     simp only [sort_items, List.mergeSort_singleton]
     decide)⟩
